import Mathlib

/-
Verification of the conversational client lookup-and-enrichment bot
(`src/__main__.py`, `src/__main__ATTACHMENT.py`) against its
natural-language specification.

Python strings are embedded as `List Char` (`Str`); Python's ASCII-range
`str.lower`, `str.strip`, `str.split` and substring tests are modelled
explicitly below.  Stateful code (the global `CLIENTS`/`FAVOURITES` lists,
the attachment listener's `processed_messages` set) is embedded by explicit
state passing.  Each `aiohttp` backend call is embedded by a `HttpResult`
input describing the response (200 payload / 404 / other status /
connection error / timeout), and each handler becomes a pure function from
its inputs to the list of reply messages it sends, in order.
-/

namespace ClientBot

/-- Python strings, embedded as lists of characters. -/
abbrev Str := List Char

/-- Whitespace characters recognised by Python's `str.split()` / `str.strip()`
(space, tab, newline, carriage return, vertical tab, form feed). -/
def pyIsSpace (c : Char) : Bool :=
  c == ' ' || c == '\t' || c == '\n' || c == '\r' ||
  c == Char.ofNat 11 || c == Char.ofNat 12

/-- Lower-casing of one character, as `str.lower` acts on the ASCII range
(the inputs appearing in this development are ASCII). -/
def pyLowerChar (c : Char) : Char :=
  if 'A' ≤ c ∧ c ≤ 'Z' then Char.ofNat (c.toNat + 32) else c

/-- Python `s.lower()`. -/
def pyLower (s : Str) : Str := s.map pyLowerChar

/-- Leading-whitespace removal (the left half of Python `s.strip()`). -/
def lstrip (s : Str) : Str := s.dropWhile pyIsSpace

/-- Trailing-whitespace removal (the right half of Python `s.strip()`). -/
def rstrip (s : Str) : Str := (s.reverse.dropWhile pyIsSpace).reverse

/-- Python `s.strip()`. -/
def strip (s : Str) : Str := rstrip (lstrip s)

/-- Worker for `splitWs`: `acc` holds the current word, reversed. -/
def splitWsAux : Str → Str → List Str
  | [], acc => if acc = [] then [] else [acc.reverse]
  | c :: cs, acc =>
    if pyIsSpace c then
      if acc = [] then splitWsAux cs [] else acc.reverse :: splitWsAux cs []
    else splitWsAux cs (c :: acc)

/-- Python `s.split()`: split on runs of whitespace, discarding empties. -/
def splitWs (s : Str) : List Str := splitWsAux s []

/-- Python `s.startswith(pre)`. -/
def startsWith (pre s : Str) : Bool :=
  match pre with
  | [] => true
  | p :: ps =>
    match s with
    | [] => false
    | c :: cs => p == c && startsWith ps cs

/-- Python substring test `needle in hay`. -/
def hasSubstring (needle hay : Str) : Bool :=
  match hay with
  | [] => startsWith needle []
  | _ :: t => startsWith needle hay || hasSubstring needle t

/-- Python string comparison `a <= b` (lexicographic by code point),
as used by `list.sort(key=...)` on string keys. -/
def pyStrLe (a b : Str) : Bool :=
  match a with
  | [] => true
  | x :: xs =>
    match b with
    | [] => false
    | y :: ys => if x = y then pyStrLe xs ys else decide (x < y)

/-- Stable insertion of `x` into a sorted list: `x` is placed before the
first element it compares `le` to, hence before elements equal to it. -/
def insertSorted (le : α → α → Bool) (x : α) : List α → List α
  | [] => [x]
  | y :: ys => if le x y then x :: y :: ys else y :: insertSorted le x ys

/-- Stable sort, modelling Python's stable `list.sort(key=...)` (extensionally:
any stable sort with the same total-preorder key yields the same list). -/
def pySort (le : α → α → Bool) : List α → List α
  | [] => []
  | x :: xs => insertSorted le x (pySort le xs)

/-- One client record, as built row-by-row in `load_clients_from_csv`. -/
structure Client where
  client_id : Str
  client_name : Str
  is_favourite : Bool
deriving DecidableEq

/-- The pair of module-level globals `CLIENTS` and `FAVOURITES`. -/
structure BotState where
  CLIENTS : List Client
  FAVOURITES : List Client
deriving DecidableEq

/-- Sort key order used by `FAVOURITES.sort(key=lambda x: x['client_name'])`. -/
def nameLe (x y : Client) : Bool := pyStrLe x.client_name y.client_name

/-- Sort key order used by
`matches.sort(key=lambda x: (not x['is_favourite'], x['client_name']))`:
lexicographic on the pair (not favourite, name). -/
def searchLe (x y : Client) : Bool :=
  if x.is_favourite = y.is_favourite then pyStrLe x.client_name y.client_name
  else x.is_favourite

/-- Body of the per-client match test in `search_clients`: every term of the
query must occur in the lowered name or the lowered id. -/
def clientMatchTerms (terms : List Str) (c : Client) : Bool :=
  terms.all fun t =>
    hasSubstring t (pyLower c.client_name) || hasSubstring t (pyLower c.client_id)

/-- Embedding of `search_clients` (src/__main__.py lines 341-369); the global
`CLIENTS` list is passed explicitly.  Mirrors the source: a falsy (empty)
query returns `[]` at once; otherwise the query is lowered and stripped,
split on whitespace, each client is kept iff every term is a substring of
its lowered name or lowered id, and the matches are stable-sorted with
favourites first, then ascending by name. -/
def search_clients (CLIENTS : List Client) (query : Str) : List Client :=
  if query = [] then []
  else pySort searchLe
    (CLIENTS.filter (clientMatchTerms (splitWs (strip (pyLower query)))))

/-- Predicate of §4.2 of the spec, in the spec's own phrasing: every
whitespace-separated token of the lowercased query is a substring of the
record's lowercased name or of its lowercased id. -/
def specMatches (query : Str) (c : Client) : Bool :=
  (splitWs (pyLower query)).all fun t =>
    hasSubstring t (pyLower c.client_name) || hasSubstring t (pyLower c.client_id)

/-- One raw CSV row: either the three required column values, or a row on
which field access raises (missing column, undecodable value). -/
inductive RawRow where
  | row (client_id client_name is_favourite : Str)
  | bad
deriving DecidableEq

/-- The CSV input as `load_clients_from_csv` can encounter it: a missing file
(`FileNotFoundError` is raised by `open`, before the globals are touched)
or a sequence of rows. -/
inductive CsvInput where
  | missing
  | rows (rs : List RawRow)
deriving DecidableEq

/-- Building one `client` dict from a row (strip each field; the favourite
flag is the stripped, lowered value compared with the literal true). -/
def parseRow (i n f : Str) : Client :=
  { client_id := strip i
    client_name := strip n
    is_favourite := pyLower (strip f) = "true".toList }

/-- The row loop of `load_clients_from_csv`: `cs` and `fs` are the global
`CLIENTS` and `FAVOURITES` as rebuilt so far.  A bad row raises, which the
handler turns into a `False` return with the globals left partially built. -/
def loadRows : List RawRow → List Client → List Client →
    List Client × List Client × Bool
  | [], cs, fs => (cs, fs, true)
  | RawRow.bad :: _, cs, fs => (cs, fs, false)
  | RawRow.row i n f :: rest, cs, fs =>
    let c := parseRow i n f
    loadRows rest (cs ++ [c]) (if c.is_favourite then fs ++ [c] else fs)

/-- Embedding of `load_clients_from_csv` (src/__main__.py lines 26-62) as a
state transformer on the globals.  On a missing file the globals are
untouched and `False` is returned; otherwise the globals are reset and
rebuilt row by row; on full success the favourites are sorted by name and
truncated to 10 and `True` is returned; a bad row aborts with the partially
rebuilt globals in place. -/
def load_clients_from_csv (st : BotState) (input : CsvInput) : BotState × Bool :=
  match input with
  | CsvInput.missing => (st, false)
  | CsvInput.rows rs =>
    match loadRows rs [] [] with
    | (cs, fs, true) =>
      ({ CLIENTS := cs, FAVOURITES := (pySort nameLe fs).take 10 }, true)
    | (cs, fs, false) => ({ CLIENTS := cs, FAVOURITES := fs }, false)

/-- Convenience: the clients a list of well-formed rows parses to. -/
def parsedClients (ts : List (Str × Str × Str)) : List Client :=
  ts.map fun t => parseRow t.1 t.2.1 t.2.2

/-- Well-formed rows, for stating what `load_clients_from_csv` does on
inputs whose prefix parses. -/
def mkRow (t : Str × Str × Str) : RawRow := RawRow.row t.1 t.2.1 t.2.2

/-- The three interactive-control namespaces of the wire format. -/
inductive SelectionKind where
  | client
  | fav
  | tradeDoc
deriving DecidableEq

/-- The namespace marker each kind of control identifier begins with, as
concatenated in `create_client_selection_form` (`client_{client_id}`),
`create_favourites_bar` (`fav_{client_id}`) and `create_trades_table`
(`trade_doc_{trade_number}`). -/
def nsMarker : SelectionKind → Str
  | SelectionKind.client => "client_".toList
  | SelectionKind.fav => "fav_".toList
  | SelectionKind.tradeDoc => "trade_doc_".toList

/-- Encoding of a selection into a button identifier: the namespace marker
followed by the id. -/
def encode_control_id (k : SelectionKind) (id : Str) : Str := nsMarker k ++ id

/-- Decoding of a submitted `action` value in
`ClientSelectionFormActivity.on_activity` (lines 512-515): try the
`client_` marker, then the `fav_` marker, stripping 7 resp. 4 characters. -/
def decode_action_value (v : Str) : Option (SelectionKind × Str) :=
  if startsWith ("client_".toList) v = true then some (SelectionKind.client, v.drop 7)
  else if startsWith ("fav_".toList) v = true then some (SelectionKind.fav, v.drop 4)
  else none

/-- Decoding of a submitted `action` value in
`TradeDocumentActivity.on_activity` (lines 236-237): the `trade_doc_`
marker followed by the trade number, stripping 10 characters. -/
def decode_trade_action_value (v : Str) : Option (SelectionKind × Str) :=
  if startsWith ("trade_doc_".toList) v = true then
    some (SelectionKind.tradeDoc, v.drop 10)
  else none

/-- The client-id extraction loop of `ClientSelectionFormActivity.on_activity`
(lines 503-523) over the submitted field map in iteration order.  A field
named `action` with a truthy value decodes its value and breaks (also when
the value carries no recognised marker, leaving no selection); a field whose
name carries the `client_` or `fav_` marker decodes its name and breaks;
otherwise the scan continues. -/
def extract_client_id : List (Str × Str) → Option Str
  | [] => none
  | (k, v) :: rest =>
    if k = "action".toList ∧ v ≠ [] then
      if startsWith ("client_".toList) v = true then some (v.drop 7)
      else if startsWith ("fav_".toList) v = true then some (v.drop 4)
      else none
    else if startsWith ("client_".toList) k = true then some (k.drop 7)
    else if startsWith ("fav_".toList) k = true then some (k.drop 4)
    else extract_client_id rest

/-- Decoder that follows the words of §4.3 of the spec (the refinement
target to compare `extract_client_id` with).  Modelled from the spec: first
look for a field literally named `action`; only if absent, scan field names
for a recognised marker, first match in iteration order. -/
def specDecodeSelection (fields : List (Str × Str)) : Option Str :=
  match fields.find? (fun kv => kv.1 = "action".toList) with
  | some kv =>
    if startsWith ("client_".toList) kv.2 = true then some (kv.2.drop 7)
    else if startsWith ("fav_".toList) kv.2 = true then some (kv.2.drop 4)
    else none
  | none =>
    match fields.find? (fun kv =>
        startsWith ("client_".toList) kv.1 || startsWith ("fav_".toList) kv.1) with
    | some kv =>
      if startsWith ("client_".toList) kv.1 = true then some (kv.1.drop 7)
      else some (kv.1.drop 4)
    | none => none

/-- Whether one field of the submitted map stops the extraction loop of
`extract_client_id` (it is an `action` field with a truthy value, or its
name carries a recognised marker). -/
def fieldStops (kv : Str × Str) : Bool :=
  (decide (kv.1 = "action".toList) && decide (kv.2 ≠ [])) ||
  startsWith ("client_".toList) kv.1 || startsWith ("fav_".toList) kv.1

/-- The value the extraction loop ends with when it stops at field `(k, v)`. -/
def fieldValue (k v : Str) : Option Str :=
  if k = "action".toList ∧ v ≠ [] then
    if startsWith ("client_".toList) v = true then some (v.drop 7)
    else if startsWith ("fav_".toList) v = true then some (v.drop 4)
    else none
  else if startsWith ("client_".toList) k = true then some (k.drop 7)
  else some (k.drop 4)

/-- Parsed JSON payload of a 200 response from `GET /status/{client_id}`. -/
structure StatusPayload where
  status_line : Str
deriving DecidableEq

/-- Parsed JSON payload of a 200 response from `GET /credit/{client_id}`. -/
structure CreditPayload where
  credit_line : Str
deriving DecidableEq

/-- One trade of the array returned by `GET /trades/{client_id}` (all fields
are rendered verbatim into the trades table). -/
structure Trade where
  trade_number : Str
  trade_date : Str
  product : Str
  direction : Str
  currency_pair : Str
  notional_amount : Str
  price : Str
  spread : Str
deriving DecidableEq

/-- Outcome of one `aiohttp` backend call, as the handlers distinguish them:
a 200 with parsed payload, a 404, any other status code, a connection
failure (`ClientConnectorError`), a timeout (`asyncio.TimeoutError`), or any
other raised error. -/
inductive HttpResult (α : Type) where
  | ok (payload : α)
  | notFound
  | otherStatus (code : Nat)
  | connectError
  | timeout
  | otherError
deriving DecidableEq

/-- Embedding of `get_client_status` (lines 93-120): 200 yields the payload;
404, any other status, connection failure, timeout and any other error all
yield `None`. -/
def get_client_status : HttpResult StatusPayload → Option StatusPayload
  | HttpResult.ok p => some p
  | _ => none

/-- Embedding of `get_client_credit_lines` (lines 122-149): 200 yields the
payload; everything else yields `None`. -/
def get_client_credit_lines : HttpResult CreditPayload → Option CreditPayload
  | HttpResult.ok p => some p
  | _ => none

/-- Embedding of `get_client_trades` (lines 64-91): 200 yields the trades
array, 404 yields the empty list (not an error), everything else `None`. -/
def get_client_trades : HttpResult (List Trade) → Option (List Trade)
  | HttpResult.ok ts => some ts
  | HttpResult.notFound => some []
  | _ => none

/-- The reply messages `ClientSelectionFormActivity.on_activity` can send, in
the order it sends them; each constructor records the data interpolated into
the corresponding messageML block. -/
inductive Msg where
  | confirmation (c : Client)
  | statusMsg (status_line : Str)
  | creditMsg (credit_line : Str)
  | tradesMsg (trades : List Trade) (client_name : Str)
  | tradesUnavailable (client_name : Str)
  | clientNotFound
  | noSelection
deriving DecidableEq

/-- First client of the directory with the given id (the lookup loop of
lines 531-536). -/
def findClient (CLIENTS : List Client) (cid : Str) : Option Client :=
  CLIENTS.find? fun c => c.client_id = cid

/-- Embedding of `ClientSelectionFormActivity.on_activity` (lines 497-616) as
the ordered list of reply messages it sends, given the submitted field map
and the outcome of each backend call.  The decoded id is guarded by the
truthiness test `if selected_client_id:` of line 530, so an empty decoded id
(falsy in Python) takes the no-selection branch like `None`.  A selected and
found client gets the confirmation, then the status message only if the
status call returned a payload, then the credit message only if the credit
call returned a payload, then the trades table if the trades call succeeded
(404 included) and the trades-unavailable message otherwise. -/
def client_selection_replies (CLIENTS : List Client) (fields : List (Str × Str))
    (rStatus : HttpResult StatusPayload) (rCredit : HttpResult CreditPayload)
    (rTrades : HttpResult (List Trade)) : List Msg :=
  match extract_client_id fields with
  | none => [Msg.noSelection]
  | some cid =>
    if cid = [] then [Msg.noSelection]
    else
      match findClient CLIENTS cid with
      | none => [Msg.clientNotFound]
      | some c =>
        Msg.confirmation c ::
        ((match get_client_status rStatus with
          | some s => [Msg.statusMsg s.status_line]
          | none => []) ++
         (match get_client_credit_lines rCredit with
          | some cr => [Msg.creditMsg cr.credit_line]
          | none => []) ++
         (match get_client_trades rTrades with
          | some ts => [Msg.tradesMsg ts c.client_name]
          | none => [Msg.tradesUnavailable c.client_name]))

/-- The reply of the trades branch alone, for stating that it is emitted last
whatever happened to the earlier capabilities. -/
def tradesReply (rTrades : HttpResult (List Trade)) (client_name : Str) : Msg :=
  match get_client_trades rTrades with
  | some ts => Msg.tradesMsg ts client_name
  | none => Msg.tradesUnavailable client_name

/-- Body and headers of a 200 response from `GET /document/{trade_number}`:
the raw bytes and the `content-disposition` header (empty when absent, as
`headers.get('content-disposition', '')` yields). -/
structure DocBody where
  content : List Nat
  content_disposition : Str
deriving DecidableEq

/-- Suffix of `s` after the first occurrence of `sep` (Python
`s.split(sep)[1]` keeps it only up to the next occurrence; see
`segmentAfterFirst`). -/
def dropThroughFirst (sep : Str) : Str → Str
  | [] => []
  | c :: cs =>
    if startsWith sep (c :: cs) = true then (c :: cs).drop sep.length
    else dropThroughFirst sep cs

/-- Longest part of `s` before the first occurrence of `sep`. -/
def takeUntil (sep : Str) : Str → Str
  | [] => []
  | c :: cs =>
    if startsWith sep (c :: cs) = true then []
    else c :: takeUntil sep cs

/-- Python `s.split(sep)[1]`: the segment between the first occurrence of
`sep` and the following occurrence (or the end). -/
def segmentAfterFirst (sep s : Str) : Str := takeUntil sep (dropThroughFirst sep s)

/-- Python `s.strip(ch)` for one character: remove that character from both
ends. -/
def stripChar (ch : Char) (s : Str) : Str :=
  ((s.dropWhile fun c => c = ch).reverse.dropWhile fun c => c = ch).reverse

/-- Filename resolution of `_download_and_send_trade_document` (lines
292-298): the quoted name from the `content-disposition` hint when present,
else the trade number with the default `.pdf` extension. -/
def resolve_filename (trade_number cd : Str) : Str :=
  if hasSubstring ("filename=".toList) cd = true then
    stripChar '"' (segmentAfterFirst ("filename=".toList) cd)
  else trade_number ++ ".pdf".toList

/-- The trade-number extraction loop of `TradeDocumentActivity.on_activity`
(lines 230-241): an `action` field whose truthy value carries the
`trade_doc_` marker decodes its value and breaks; a field whose name carries
the marker decodes its name and breaks; otherwise the scan continues. -/
def extract_trade_number : List (Str × Str) → Option Str
  | [] => none
  | (k, v) :: rest =>
    if k = "action".toList ∧ v ≠ [] ∧ startsWith ("trade_doc_".toList) v = true then
      some (v.drop 10)
    else if startsWith ("trade_doc_".toList) k = true then some (k.drop 10)
    else extract_trade_number rest

/-- The reply messages `TradeDocumentActivity` can send, in order. -/
inductive TradeMsg where
  | ack (trade_number : Str)
  | docSent (filename : Str) (size : Nat) (trade_number : Str)
  | contractNotFound (trade_number : Str)
  | noTradeNumber
deriving DecidableEq

/-- Embedding of `TradeDocumentActivity.on_activity` together with
`_download_and_send_trade_document` (lines 225-339) as the ordered list of
replies.  The decoded number is guarded by the truthiness test
`if trade_number:` of line 252, so an empty decoded number (falsy in Python)
takes the no-trade-number branch like `None`.  With a non-empty trade
number, the acknowledgment is sent, then either the document message (on a
200) or — `_download_and_send_trade_document` having returned `False` on a
404, any other status, a connection failure, a timeout or any other error
alike — the contract-not-found message; otherwise only the no-trade-number
message. -/
def trade_document_replies (fields : List (Str × Str))
    (rDoc : HttpResult DocBody) : List TradeMsg :=
  match extract_trade_number fields with
  | none => [TradeMsg.noTradeNumber]
  | some n =>
    if n = [] then [TradeMsg.noTradeNumber]
    else
      TradeMsg.ack n ::
      (match rDoc with
       | HttpResult.ok body =>
         [TradeMsg.docSent (resolve_filename n body.content_disposition)
           body.content.length n]
       | _ => [TradeMsg.contractNotFound n])

/-- Routing outcome of an inbound free-text message for the client-lookup
handler. -/
inductive Route where
  | ignored
  | favourites
  | search (query : Str)
deriving DecidableEq

/-- Embedding of `ClientSearchActivity.matches` (lines 426-441) on the
lowered, stripped text: slash-prefixed text never matches, `find `-prefixed
text matches, the exact word `fav` matches, nothing else does. -/
def clientSearchActivityMatches (text_content : Str) : Bool :=
  if startsWith ("/".toList) (strip (pyLower text_content)) = true then false
  else if startsWith ("find ".toList) (strip (pyLower text_content)) = true then true
  else if strip (pyLower text_content) = "fav".toList then true
  else false

/-- Embedding of the free-text dispatch: `ClientSearchActivity.on_activity`
(lines 443-462) runs only when `matches` accepted the text, shows the
favourites on the exact word `fav`, and otherwise searches, stripping the
`find ` trigger from the stripped original-case text. -/
def classify_text (text_content : Str) : Route :=
  if clientSearchActivityMatches text_content = false then Route.ignored
  else if pyLower (strip text_content) = "fav".toList then Route.favourites
  else if startsWith ("find ".toList) (pyLower (strip text_content)) = true then
    Route.search ((strip text_content).drop 5)
  else Route.search (strip text_content)

/-- One inbound message event as `AttachmentDownloadListener.on_message_sent`
inspects it: its id and the list of its attachment ids. -/
structure MessageEvent where
  message_id : Str
  attachments : List Str
deriving DecidableEq

/-- The listener's mutable `processed_messages` set, embedded as a
duplicate-free list. -/
structure ListenerState where
  processed_messages : List Str
deriving DecidableEq

/-- Set insertion (`set.add`). -/
def setAdd (x : Str) (s : List Str) : List Str := if x ∈ s then s else x :: s

/-- Observable effect of one `on_message_sent` call: how many attachment
downloads were started and whether a reply message was sent. -/
structure ListenerEffect where
  downloads : Nat
  replied : Bool
deriving DecidableEq

/-- Embedding of `AttachmentDownloadListener.on_message_sent`
(src/__main__ATTACHMENT.py lines 41-102): a message without attachments is
returned from at once; an attachment-bearing message whose id is already in
`processed_messages` is returned from before any download; otherwise the id
is recorded, every attachment is downloaded and one summary reply is sent. -/
def on_message_sent (st : ListenerState) (ev : MessageEvent) :
    ListenerState × ListenerEffect :=
  if ev.attachments = [] then (st, { downloads := 0, replied := false })
  else if ev.message_id ∈ st.processed_messages then
    (st, { downloads := 0, replied := false })
  else
    ({ processed_messages := setAdd ev.message_id st.processed_messages },
     { downloads := ev.attachments.length, replied := true })

/-- The listener state after a whole sequence of inbound events. -/
def runListener (st : ListenerState) (evs : List MessageEvent) : ListenerState :=
  evs.foldl (fun s e => (on_message_sent s e).1) st

/-- Valid code points round-trip through `Char.ofNat`. -/
theorem toNat_ofNat_valid (n : Nat) (h : n < 55296) : (Char.ofNat n).toNat = n := by
  unfold Char.ofNat
  rw [dif_pos (Or.inl h)]
  rfl

/-- No character at or above code point 65 is Python whitespace. -/
theorem pyIsSpace_false_of_ge (c : Char) (h : 65 ≤ c.toNat) : pyIsSpace c = false := by
  have h32 : (c == ' ') = false :=
    beq_eq_false_iff_ne.mpr (by rintro rfl; exact absurd h (by decide))
  have h9 : (c == '\t') = false :=
    beq_eq_false_iff_ne.mpr (by rintro rfl; exact absurd h (by decide))
  have h10 : (c == '\n') = false :=
    beq_eq_false_iff_ne.mpr (by rintro rfl; exact absurd h (by decide))
  have h13 : (c == '\r') = false :=
    beq_eq_false_iff_ne.mpr (by rintro rfl; exact absurd h (by decide))
  have h11 : (c == Char.ofNat 11) = false :=
    beq_eq_false_iff_ne.mpr (by rintro rfl; exact absurd h (by decide))
  have h12 : (c == Char.ofNat 12) = false :=
    beq_eq_false_iff_ne.mpr (by rintro rfl; exact absurd h (by decide))
  simp [pyIsSpace, h32, h9, h10, h13, h11, h12]

/-- Lower-casing does not change whether a character is whitespace. -/
theorem pyIsSpace_pyLowerChar (c : Char) : pyIsSpace (pyLowerChar c) = pyIsSpace c := by
  unfold pyLowerChar
  by_cases h : 'A' ≤ c ∧ c ≤ 'Z'
  · rw [if_pos h]
    have h1 : 65 ≤ c.toNat := h.1
    have h2 : c.toNat ≤ 90 := h.2
    have hv : (Char.ofNat (c.toNat + 32)).toNat = c.toNat + 32 :=
      toNat_ofNat_valid _ (by omega)
    rw [pyIsSpace_false_of_ge c h1, pyIsSpace_false_of_ge _ (by omega)]
  · rw [if_neg h]

/-- Python `lower` and `strip` commute (lower-casing preserves whitespace). -/
theorem strip_pyLower (s : Str) : strip (pyLower s) = pyLower (strip s) := by
  have hcomp : pyIsSpace ∘ pyLowerChar = pyIsSpace := funext pyIsSpace_pyLowerChar
  unfold strip lstrip rstrip pyLower
  simp only [List.dropWhile_map, ← List.map_reverse, hcomp]

/-- Splitting a run of whitespace only flushes the pending word. -/
theorem splitWsAux_spaces : ∀ (ws : Str), (∀ c ∈ ws, pyIsSpace c = true) →
    ∀ (acc : Str), splitWsAux ws acc = if acc = [] then [] else [acc.reverse] := by
  intro ws
  induction ws with
  | nil => intro _ acc; rfl
  | cons c cs ih =>
    intro hws acc
    have hc : pyIsSpace c = true := hws c (List.mem_cons_self c cs)
    have hcs : ∀ x ∈ cs, pyIsSpace x = true := fun x hx => hws x (List.mem_cons_of_mem c hx)
    by_cases hacc : acc = [] <;> simp [splitWsAux, hc, hacc, ih hcs]

/-- Trailing whitespace does not affect splitting. -/
theorem splitWsAux_append_spaces (ws : Str) (hws : ∀ c ∈ ws, pyIsSpace c = true) :
    ∀ (s acc : Str), splitWsAux (s ++ ws) acc = splitWsAux s acc := by
  intro s
  induction s with
  | nil =>
    intro acc
    rw [List.nil_append, splitWsAux_spaces ws hws acc]
    rfl
  | cons c cs ih =>
    intro acc
    by_cases hc : pyIsSpace c = true <;> simp [splitWsAux, hc, ih]

/-- Leading whitespace does not affect splitting. -/
theorem splitWs_lstrip (s : Str) : splitWs (lstrip s) = splitWs s := by
  unfold splitWs lstrip
  induction s with
  | nil => rfl
  | cons c cs ih =>
    by_cases hc : pyIsSpace c = true
    · rw [List.dropWhile_cons, if_pos hc]
      rw [ih]
      simp [splitWsAux, hc]
    · rw [List.dropWhile_cons, if_neg hc]

/-- A string is its right-stripped part followed by its whitespace tail. -/
theorem rstrip_decomp (s : Str) :
    rstrip s ++ (s.reverse.takeWhile pyIsSpace).reverse = s := by
  unfold rstrip
  rw [← List.reverse_append, List.takeWhile_append_dropWhile, List.reverse_reverse]

/-- Trailing whitespace does not affect splitting, `rstrip` form. -/
theorem splitWs_rstrip (s : Str) : splitWs (rstrip s) = splitWs s := by
  have hws : ∀ c ∈ (s.reverse.takeWhile pyIsSpace).reverse, pyIsSpace c = true := by
    intro c hc
    rw [List.mem_reverse] at hc
    exact List.mem_takeWhile_imp hc
  conv_rhs => rw [← rstrip_decomp s]
  unfold splitWs
  rw [splitWsAux_append_spaces _ hws]

/-- Python `split()` ignores surrounding whitespace: stripping first changes
nothing. -/
theorem splitWs_strip (s : Str) : splitWs (strip s) = splitWs s := by
  unfold strip
  rw [splitWs_rstrip, splitWs_lstrip]

/-- An all-whitespace string splits into no tokens at all. -/
theorem splitWs_spaces (s : Str) (h : ∀ c ∈ s, pyIsSpace c = true) : splitWs s = [] := by
  unfold splitWs
  rw [splitWsAux_spaces s h []]
  rfl

/-- A string starts with any of its own prefixes. -/
theorem startsWith_append (l m : Str) : startsWith l (l ++ m) = true := by
  induction l with
  | nil => rfl
  | cons c cs ih => simp [startsWith, ih]

/-- A successful Python `startswith` exhibits the string as marker plus rest. -/
theorem startsWith_exists {pre s : Str} (h : startsWith pre s = true) :
    ∃ t, s = pre ++ t := by
  induction pre generalizing s with
  | nil => exact ⟨s, rfl⟩
  | cons p ps ih =>
    cases s with
    | nil => simp [startsWith] at h
    | cons c cs =>
      simp only [startsWith, Bool.and_eq_true, beq_iff_eq] at h
      obtain ⟨t, ht⟩ := ih h.2
      exact ⟨t, by rw [List.cons_append, ← h.1, ht]⟩

/-- Stable insertion permutes the element onto the list. -/
theorem perm_insertSorted (le : α → α → Bool) (x : α) (l : List α) :
    (insertSorted le x l).Perm (x :: l) := by
  induction l with
  | nil => exact List.Perm.refl _
  | cons y ys ih =>
    by_cases h : le x y = true
    · simp [insertSorted, h]
    · simp only [insertSorted, h, if_false]
      exact (ih.cons y).trans (List.Perm.swap x y ys)

/-- Stable insertion sort permutes its input. -/
theorem pySort_perm (le : α → α → Bool) (l : List α) : (pySort le l).Perm l := by
  induction l with
  | nil => exact List.Perm.refl _
  | cons x xs ih =>
    exact (perm_insertSorted le x (pySort le xs)).trans (ih.cons x)

/-- Membership in a stable insertion. -/
theorem mem_insertSorted (le : α → α → Bool) (x : α) (l : List α) (w : α) :
    w ∈ insertSorted le x l ↔ w = x ∨ w ∈ l := by
  rw [(perm_insertSorted le x l).mem_iff, List.mem_cons]

/-- Inserting into a sorted list keeps it sorted, for a transitive total
boolean order. -/
theorem pairwise_insertSorted (le : α → α → Bool)
    (htrans : ∀ a b c, le a b = true → le b c = true → le a c = true)
    (htot : ∀ a b, le a b = true ∨ le b a = true) (x : α) :
    ∀ (l : List α), List.Pairwise (fun a b => le a b = true) l →
      List.Pairwise (fun a b => le a b = true) (insertSorted le x l) := by
  intro l
  induction l with
  | nil => intro _; simp [insertSorted]
  | cons y ys ih =>
    intro h
    rcases h with _ | ⟨hy, hys⟩
    by_cases hxy : le x y = true
    · simp only [insertSorted, hxy, if_true]
      refine List.Pairwise.cons ?_ (List.Pairwise.cons hy hys)
      intro z hz
      rcases List.mem_cons.mp hz with rfl | hz
      · exact hxy
      · exact htrans x y z hxy (hy z hz)
    · simp only [insertSorted, hxy, if_false]
      refine List.Pairwise.cons ?_ (ih hys)
      intro w hw
      rcases (mem_insertSorted le x ys w).mp hw with rfl | hw
      · rcases htot w y with h1 | h1
        · exact absurd h1 hxy
        · exact h1
      · exact hy w hw

/-- Stable insertion sort sorts, for a transitive total boolean order. -/
theorem pairwise_pySort (le : α → α → Bool)
    (htrans : ∀ a b c, le a b = true → le b c = true → le a c = true)
    (htot : ∀ a b, le a b = true ∨ le b a = true) (l : List α) :
    List.Pairwise (fun a b => le a b = true) (pySort le l) := by
  induction l with
  | nil => simp [pySort]
  | cons x xs ih => exact pairwise_insertSorted le htrans htot x (pySort le xs) ih

/-- Lexicographic string comparison is total. -/
theorem pyStrLe_total : ∀ (a b : Str), pyStrLe a b = true ∨ pyStrLe b a = true := by
  intro a
  induction a with
  | nil => intro b; left; rfl
  | cons x xs ih =>
    intro b
    cases b with
    | nil => right; rfl
    | cons y ys =>
      by_cases hxy : x = y
      · subst hxy
        rcases ih ys with h | h
        · left; simp [pyStrLe, h]
        · right; simp [pyStrLe, h]
      · rcases lt_or_gt_of_ne hxy with h | h
        · left; simp [pyStrLe, hxy, h]
        · right; simp [pyStrLe, Ne.symm hxy, h]

/-- Lexicographic string comparison is transitive. -/
theorem pyStrLe_trans : ∀ (a b c : Str),
    pyStrLe a b = true → pyStrLe b c = true → pyStrLe a c = true := by
  intro a
  induction a with
  | nil => intro b c _ _; rfl
  | cons x xs ih =>
    intro b c hab hbc
    cases b with
    | nil => simp [pyStrLe] at hab
    | cons y ys =>
      cases c with
      | nil => simp [pyStrLe] at hbc
      | cons z zs =>
        simp only [pyStrLe] at hab hbc ⊢
        by_cases hxy : x = y
        · subst hxy
          by_cases hyz : x = z
          · subst hyz
            simp only [if_pos rfl] at hab hbc ⊢
            exact ih ys zs hab hbc
          · simpa [hyz] using hbc
        · by_cases hyz : y = z
          · subst hyz
            simpa [hxy] using hab
          · rw [if_neg hxy] at hab
            rw [if_neg hyz] at hbc
            have h1 : x < y := of_decide_eq_true hab
            have h2 : y < z := of_decide_eq_true hbc
            have h3 : x < z := lt_trans h1 h2
            rw [if_neg (ne_of_lt h3)]
            exact decide_eq_true h3

/-- The favourites-then-name sort key order is total. -/
theorem searchLe_total : ∀ (a b : Client), searchLe a b = true ∨ searchLe b a = true := by
  intro a b
  by_cases h : a.is_favourite = b.is_favourite
  · rcases pyStrLe_total a.client_name b.client_name with h1 | h1
    · left; simp [searchLe, h, h1]
    · right; simp [searchLe, h.symm, h1]
  · cases ha : a.is_favourite
    · cases hb : b.is_favourite
      · exact absurd (ha.trans hb.symm) h
      · right
        unfold searchLe
        rw [if_neg (fun e => h (e.symm))]
        exact hb
    · left
      unfold searchLe
      rw [if_neg h]
      exact ha

/-- The favourites-then-name sort key order is transitive. -/
theorem searchLe_trans : ∀ (a b c : Client),
    searchLe a b = true → searchLe b c = true → searchLe a c = true := by
  intro a b c hab hbc
  unfold searchLe at hab hbc ⊢
  by_cases h1 : a.is_favourite = b.is_favourite
  · by_cases h2 : b.is_favourite = c.is_favourite
    · rw [if_pos h1] at hab
      rw [if_pos h2] at hbc
      rw [if_pos (h1.trans h2)]
      exact pyStrLe_trans _ _ _ hab hbc
    · rw [if_neg h2] at hbc
      have hac : a.is_favourite ≠ c.is_favourite := fun e => h2 (h1.symm.trans e)
      rw [if_neg hac]
      rw [h1]
      exact hbc
  · by_cases h2 : b.is_favourite = c.is_favourite
    · have hac : a.is_favourite ≠ c.is_favourite := fun e => h1 (e.trans h2.symm)
      rw [if_neg hac]
      rw [if_neg h1] at hab
      exact hab
    · rw [if_neg h1] at hab
      rw [if_neg h2] at hbc
      exact absurd (hab.trans hbc.symm) h1

/-- The name-only sort key order is total. -/
theorem nameLe_total : ∀ (a b : Client), nameLe a b = true ∨ nameLe b a = true :=
  fun a b => pyStrLe_total a.client_name b.client_name

/-- The name-only sort key order is transitive. -/
theorem nameLe_trans : ∀ (a b c : Client),
    nameLe a b = true → nameLe b c = true → nameLe a c = true :=
  fun _ _ _ hab hbc => pyStrLe_trans _ _ _ hab hbc

/-- The row loop on a list of well-formed rows appends their parses to the
globals and succeeds. -/
theorem loadRows_map : ∀ (ts : List (Str × Str × Str)) (cs fs : List Client),
    loadRows (ts.map mkRow) cs fs
      = (cs ++ parsedClients ts,
         fs ++ (parsedClients ts).filter (fun c => c.is_favourite), true) := by
  intro ts
  induction ts with
  | nil => intro cs fs; simp [loadRows, parsedClients]
  | cons t ts ih =>
    intro cs fs
    cases hc : (parseRow t.1 t.2.1 t.2.2).is_favourite <;>
      simp [mkRow, loadRows, ih, parsedClients, List.filter_cons, hc, List.append_assoc]

/-- The row loop on well-formed rows followed by a bad row fails with exactly
the parses of the well-formed prefix appended to the globals. -/
theorem loadRows_bad : ∀ (ts : List (Str × Str × Str)) (rs2 : List RawRow)
    (cs fs : List Client),
    loadRows (ts.map mkRow ++ RawRow.bad :: rs2) cs fs
      = (cs ++ parsedClients ts,
         fs ++ (parsedClients ts).filter (fun c => c.is_favourite), false) := by
  intro ts
  induction ts with
  | nil => intro rs2 cs fs; simp [loadRows, parsedClients]
  | cons t ts ih =>
    intro rs2 cs fs
    cases hc : (parseRow t.1 t.2.1 t.2.2).is_favourite <;>
      simp [mkRow, loadRows, ih, parsedClients, List.filter_cons, hc, List.append_assoc]

/-- A successful row loop makes the favourites accumulator exactly the
favourite-flagged part of what was appended to the client accumulator. -/
theorem loadRows_success : ∀ (rs : List RawRow) (cs0 fs0 cs fs : List Client),
    loadRows rs cs0 fs0 = (cs, fs, true) →
    ∃ new, cs = cs0 ++ new ∧ fs = fs0 ++ new.filter (fun c => c.is_favourite) := by
  intro rs
  induction rs with
  | nil =>
    intro cs0 fs0 cs fs h
    simp only [loadRows, Prod.mk.injEq] at h
    obtain ⟨rfl, rfl, -⟩ := h
    exact ⟨[], by simp⟩
  | cons r rs ih =>
    intro cs0 fs0 cs fs h
    cases r with
    | bad => simp [loadRows] at h
    | row i n f =>
      rw [loadRows] at h
      obtain ⟨new, h1, h2⟩ := ih _ _ _ _ h
      refine ⟨parseRow i n f :: new, ?_, ?_⟩
      · rw [h1, List.append_assoc]
        rfl
      · rw [h2]
        cases hc : (parseRow i n f).is_favourite <;>
          simp [List.filter_cons, hc, List.append_assoc]

/-- A field that does not stop the extraction loop is skipped. -/
theorem extract_skip (k v : Str) (rest : List (Str × Str))
    (h : fieldStops (k, v) = false) :
    extract_client_id ((k, v) :: rest) = extract_client_id rest := by
  simp only [fieldStops, Bool.or_eq_false_iff] at h
  obtain ⟨⟨hand, hc⟩, hd⟩ := h
  have h1 : ¬(k = "action".toList ∧ v ≠ []) := by
    rintro ⟨e1, e2⟩
    simp [e1, e2] at hand
  simp only [extract_client_id]
  rw [if_neg h1, if_neg (fun e => by rw [hc] at e; exact Bool.noConfusion e),
    if_neg (fun e => by rw [hd] at e; exact Bool.noConfusion e)]

/-- A field that stops the extraction loop decides the result, whatever
follows it (the loop breaks). -/
theorem extract_stop (k v : Str) (rest : List (Str × Str))
    (h : fieldStops (k, v) = true) :
    extract_client_id ((k, v) :: rest) = fieldValue k v := by
  by_cases h1 : k = "action".toList ∧ v ≠ []
  · simp only [extract_client_id, fieldValue, if_pos h1]
  · have h' : startsWith ("client_".toList) k = true ∨
        startsWith ("fav_".toList) k = true := by
      simp only [fieldStops, Bool.or_eq_true] at h
      rcases h with (h | h) | h
      · simp only [Bool.and_eq_true, decide_eq_true_eq] at h
        exact absurd h h1
      · exact Or.inl h
      · exact Or.inr h
    by_cases h2 : startsWith ("client_".toList) k = true
    · simp only [extract_client_id, fieldValue]
      rw [if_neg h1, if_neg h1, if_pos h2, if_pos h2]
    · have h3 : startsWith ("fav_".toList) k = true := h'.resolve_left h2
      simp only [extract_client_id, fieldValue]
      rw [if_neg h1, if_neg h1, if_neg h2, if_neg h2, if_pos h3]

/-- When no field stops the loop, extraction yields no selection. -/
theorem extract_none (fields : List (Str × Str))
    (h : ∀ p ∈ fields, fieldStops p = false) : extract_client_id fields = none := by
  induction fields with
  | nil => rfl
  | cons kv rest ih =>
    obtain ⟨k, v⟩ := kv
    rw [extract_skip k v rest (h (k, v) (List.mem_cons_self _ _))]
    exact ih fun p hp => h p (List.mem_cons_of_mem _ hp)

/-- One `on_message_sent` call never removes an id from the dedup set. -/
theorem processed_mono_step (s : ListenerState) (e : MessageEvent) (x : Str)
    (hx : x ∈ s.processed_messages) :
    x ∈ (on_message_sent s e).1.processed_messages := by
  unfold on_message_sent
  by_cases ha : e.attachments = []
  · rw [if_pos ha]; exact hx
  · rw [if_neg ha]
    by_cases hm : e.message_id ∈ s.processed_messages
    · rw [if_pos hm]; exact hx
    · rw [if_neg hm]
      show x ∈ setAdd e.message_id s.processed_messages
      unfold setAdd
      rw [if_neg hm]
      exact List.mem_cons_of_mem _ hx

/-- The dedup set only ever grows over any sequence of events. -/
theorem runListener_mono : ∀ (evs : List MessageEvent) (s : ListenerState) (x : Str),
    x ∈ s.processed_messages → x ∈ (runListener s evs).processed_messages := by
  intro evs
  induction evs with
  | nil => intro s x hx; exact hx
  | cons e evs ih =>
    intro s x hx
    exact ih _ x (processed_mono_step s e x hx)

/-- C8: round-trip law of the selection codec: for each namespace in
client / fav / trade_doc and every id, decoding the encoded control
identifier `namespace_id` (by the decoder of the handler that consumes that
namespace) recovers exactly the pair (namespace, id); in particular
`decode(encode(Client, "12345")) == (Client, "12345")`. -/
theorem claim_C8_roundtrip (id : Str) :
    decode_action_value (encode_control_id SelectionKind.client id)
      = some (SelectionKind.client, id)
  ∧ decode_action_value (encode_control_id SelectionKind.fav id)
      = some (SelectionKind.fav, id)
  ∧ decode_trade_action_value (encode_control_id SelectionKind.tradeDoc id)
      = some (SelectionKind.tradeDoc, id) := by
  refine ⟨?_, ?_, ?_⟩
  · show decode_action_value ("client_".toList ++ id) = _
    unfold decode_action_value
    rw [if_pos (startsWith_append _ _)]
    have h7 : ("client_".toList ++ id).drop 7 = id := List.drop_left ("client_".toList) id
    rw [h7]
  · show decode_action_value ("fav_".toList ++ id) = _
    have hne : startsWith ("client_".toList) ("fav_".toList ++ id) = false := rfl
    unfold decode_action_value
    rw [if_neg (fun e => by rw [hne] at e; exact Bool.noConfusion e),
      if_pos (startsWith_append _ _)]
    have h4 : ("fav_".toList ++ id).drop 4 = id := List.drop_left ("fav_".toList) id
    rw [h4]
  · show decode_trade_action_value ("trade_doc_".toList ++ id) = _
    unfold decode_trade_action_value
    rw [if_pos (startsWith_append _ _)]
    have h10 : ("trade_doc_".toList ++ id).drop 10 = id :=
      List.drop_left ("trade_doc_".toList) id
    rw [h10]

/-- C10: attachment-triggered processing is at-most-once per message id:
an attachment-bearing message whose id was already processed triggers no
download and no reply and leaves the state unchanged, and the processed-id
set only ever grows over any sequence of events. -/
theorem claim_C10_dedup (st : ListenerState) (ev : MessageEvent)
    (h1 : ev.attachments ≠ []) (h2 : ev.message_id ∈ st.processed_messages) :
    on_message_sent st ev = (st, { downloads := 0, replied := false })
  ∧ ∀ (evs : List MessageEvent) (x : Str), x ∈ st.processed_messages →
      x ∈ (runListener st evs).processed_messages := by
  constructor
  · unfold on_message_sent
    rw [if_neg h1, if_pos h2]
  · exact fun evs x hx => runListener_mono evs st x hx

/-- Witness for C10 at a concrete already-processed attachment message. -/
theorem claim_C10_dedup_witness :
    ((["a1".toList] : List Str) ≠ [] ∧ "m1".toList ∈ ["m1".toList])
  ∧ on_message_sent { processed_messages := ["m1".toList] }
      { message_id := "m1".toList, attachments := ["a1".toList] }
      = ({ processed_messages := ["m1".toList] }, { downloads := 0, replied := false }) :=
  ⟨⟨by decide, by decide⟩,
   (claim_C10_dedup { processed_messages := ["m1".toList] }
     { message_id := "m1".toList, attachments := ["a1".toList] }
     (by decide) (by decide)).1⟩

/-- C3 counterexample: the one-space query is empty after trimming yet is not
the empty string, and `search_clients` returns the full directory for it,
not the empty result — the guard tests falsiness before stripping, so a
whitespace-only query slips through and every record matches vacuously. -/
theorem claim_C3_counterexample :
    strip (" ".toList) = [] ∧ (" ".toList : Str) ≠ []
  ∧ search_clients [⟨"1".toList, "A".toList, false⟩] (" ".toList)
      = [⟨"1".toList, "A".toList, false⟩] := by decide

/-- C3 (amended): only the literally empty query returns the empty result; a
non-empty query consisting solely of whitespace yields no search tokens, so
every record matches vacuously and the full Directory is returned. -/
theorem claim_C3_amended :
    (∀ CLIENTS, search_clients CLIENTS [] = [])
  ∧ (∀ (CLIENTS : List Client) (q : Str), q ≠ [] →
      (∀ c ∈ q, pyIsSpace c = true) → (search_clients CLIENTS q).Perm CLIENTS) := by
  constructor
  · intro CLIENTS; rfl
  · intro CLIENTS q hq hsp
    have hlow : ∀ c ∈ pyLower q, pyIsSpace c = true := by
      intro c hc
      rw [pyLower, List.mem_map] at hc
      obtain ⟨c0, hc0, rfl⟩ := hc
      rw [pyIsSpace_pyLowerChar]
      exact hsp c0 hc0
    have htok : splitWs (strip (pyLower q)) = [] := by
      rw [splitWs_strip]
      exact splitWs_spaces _ hlow
    unfold search_clients
    rw [if_neg hq, htok]
    have hfil : CLIENTS.filter (clientMatchTerms []) = CLIENTS := by
      have hall : clientMatchTerms [] = fun _ => true := funext fun c => rfl
      rw [hall, List.filter_true]
    rw [hfil]
    exact pySort_perm _ _

/-- Witness for C3 (amended) at the one-space query and a one-record
directory. -/
theorem claim_C3_amended_witness :
    ((" ".toList : Str) ≠ [] ∧ ∀ c ∈ (" ".toList : Str), pyIsSpace c = true)
  ∧ (search_clients [⟨"1".toList, "A".toList, false⟩] (" ".toList)).Perm
      [⟨"1".toList, "A".toList, false⟩] :=
  ⟨⟨by decide, by decide⟩, claim_C3_amended.2 _ _ (by decide) (by decide)⟩

/-- C5 counterexample: with a prior one-client Directory, a two-row input
whose second row is malformed makes `load_clients_from_csv` fail while
leaving the globals holding the partially rebuilt first row — the prior
Directory and Favourites are not preserved on failure. -/
theorem claim_C5_counterexample :
    (load_clients_from_csv
        ⟨[⟨"9".toList, "Old".toList, true⟩], [⟨"9".toList, "Old".toList, true⟩]⟩
        (CsvInput.rows
          [RawRow.row ("1".toList) ("B".toList) ("false".toList), RawRow.bad])).2
      = false
  ∧ (load_clients_from_csv
        ⟨[⟨"9".toList, "Old".toList, true⟩], [⟨"9".toList, "Old".toList, true⟩]⟩
        (CsvInput.rows
          [RawRow.row ("1".toList) ("B".toList) ("false".toList), RawRow.bad])).1
      ≠ ⟨[⟨"9".toList, "Old".toList, true⟩], [⟨"9".toList, "Old".toList, true⟩]⟩ := by
  decide

/-- C5 (amended): load is atomic only against a missing file (globals
untouched, `False` returned); a fully well-formed input wholly replaces the
state; but a malformed row mid-input fails with the globals holding exactly
the partially rebuilt prefix — the prior Directory and Favourites are lost. -/
theorem claim_C5_amended :
    (∀ st, load_clients_from_csv st CsvInput.missing = (st, false))
  ∧ (∀ (st : BotState) (ts : List (Str × Str × Str)),
      load_clients_from_csv st (CsvInput.rows (ts.map mkRow))
        = ({ CLIENTS := parsedClients ts,
             FAVOURITES :=
               (pySort nameLe
                 ((parsedClients ts).filter fun c => c.is_favourite)).take 10 },
           true))
  ∧ (∀ (st : BotState) (ts : List (Str × Str × Str)) (rs2 : List RawRow),
      load_clients_from_csv st (CsvInput.rows (ts.map mkRow ++ RawRow.bad :: rs2))
        = ({ CLIENTS := parsedClients ts,
             FAVOURITES := (parsedClients ts).filter fun c => c.is_favourite },
           false)) := by
  refine ⟨fun st => rfl, fun st ts => ?_, fun st ts rs2 => ?_⟩
  · simp only [load_clients_from_csv, loadRows_map, List.nil_append]
  · simp only [load_clients_from_csv, loadRows_bad, List.nil_append]

/-- C6 counterexample: a backend 404 and a timeout produce the identical
reply sequence — the distinct generic-failure message the claim requires for
non-404 failures does not exist; everything renders as "contract not
found". -/
theorem claim_C6_counterexample :
    trade_document_replies [("action".toList, "trade_doc_T9".toList)]
        HttpResult.notFound
      = trade_document_replies [("action".toList, "trade_doc_T9".toList)]
          HttpResult.timeout
  ∧ trade_document_replies [("action".toList, "trade_doc_T9".toList)]
        HttpResult.notFound
      = [TradeMsg.ack ("T9".toList), TradeMsg.contractNotFound ("T9".toList)] := by
  decide

/-- C6 (amended): for every truthy (non-empty) decoded trade number, a 200
yields the document reply; every failure — 404, any other status, connection
failure, timeout — yields one and the same "contract not found" reply naming
the trade number; the two failure modes are not distinguished.  An empty
decoded trade number is falsy and yields only the no-trade-number reply,
with no backend call observable. -/
theorem claim_C6_amended (fields : List (Str × Str)) (n : Str)
    (hn : extract_trade_number fields = some n) :
    (n ≠ [] → ∀ body, trade_document_replies fields (HttpResult.ok body)
        = [TradeMsg.ack n,
           TradeMsg.docSent (resolve_filename n body.content_disposition)
             body.content.length n])
  ∧ (n ≠ [] → ∀ rDoc : HttpResult DocBody, (∀ body, rDoc ≠ HttpResult.ok body) →
      trade_document_replies fields rDoc
        = [TradeMsg.ack n, TradeMsg.contractNotFound n])
  ∧ (n = [] → ∀ rDoc : HttpResult DocBody,
      trade_document_replies fields rDoc = [TradeMsg.noTradeNumber]) := by
  refine ⟨?_, ?_, ?_⟩
  · intro hne body
    simp [trade_document_replies, hn, hne]
  · intro hne rDoc hnot
    cases rDoc
    case ok body => exact absurd rfl (hnot body)
    all_goals simp [trade_document_replies, hn, hne]
  · intro he rDoc
    subst he
    simp [trade_document_replies, hn]

/-- Witness for C6 (amended) at a concrete form and a timed-out call, and at
a form decoding to the bare (empty, falsy) trade-number marker. -/
theorem claim_C6_amended_witness :
    (extract_trade_number [("action".toList, "trade_doc_T9".toList)]
        = some ("T9".toList)
      ∧ ("T9".toList : Str) ≠ [])
  ∧ trade_document_replies [("action".toList, "trade_doc_T9".toList)]
        HttpResult.timeout
      = [TradeMsg.ack ("T9".toList), TradeMsg.contractNotFound ("T9".toList)]
  ∧ trade_document_replies [("action".toList, "trade_doc_".toList)]
        HttpResult.timeout
      = [TradeMsg.noTradeNumber] :=
  ⟨⟨by decide, by decide⟩,
   (claim_C6_amended [("action".toList, "trade_doc_T9".toList)] ("T9".toList)
       (by decide)).2.1 (by decide) HttpResult.timeout
     (fun body h => HttpResult.noConfusion h),
   (claim_C6_amended [("action".toList, "trade_doc_".toList)] []
       (by decide)).2.2 rfl HttpResult.timeout⟩

/-- C7 counterexample: with a `client_`-named field preceding an `action`
field in map iteration order, decoding follows the field name (`"1"`), not
the `action` value (`"2"`) — the decoder does not consult `action` first; it
scans all fields in one pass, in iteration order. -/
theorem claim_C7_counterexample :
    extract_client_id
        [("client_1".toList, "x".toList), ("action".toList, "client_2".toList)]
      = some ("1".toList)
  ∧ specDecodeSelection
        [("client_1".toList, "x".toList), ("action".toList, "client_2".toList)]
      = some ("2".toList)
  ∧ ("1".toList : Str) ≠ "2".toList := by decide

/-- C7 (amended): the decoder scans the field map in iteration order; the
first field that is either named `action` with a truthy value or carries a
recognised namespace marker in its name decides the outcome (an `action`
field with an unrecognised value ends the scan with no selection); if no
field decides, extraction yields `none` and the handler sends exactly the
explicit no-selection reply — decoding never raises. -/
theorem claim_C7_amended :
    (∀ (pre : List (Str × Str)) (k v : Str) (post : List (Str × Str)),
      (∀ p ∈ pre, fieldStops p = false) → fieldStops (k, v) = true →
      extract_client_id (pre ++ (k, v) :: post) = fieldValue k v)
  ∧ (∀ fields : List (Str × Str), (∀ p ∈ fields, fieldStops p = false) →
      extract_client_id fields = none)
  ∧ (∀ (CLIENTS : List Client) (fields : List (Str × Str))
      (rS : HttpResult StatusPayload) (rC : HttpResult CreditPayload)
      (rT : HttpResult (List Trade)),
      extract_client_id fields = none →
      client_selection_replies CLIENTS fields rS rC rT = [Msg.noSelection]) := by
  refine ⟨?_, fun fields h => extract_none fields h, ?_⟩
  · intro pre k v post
    induction pre with
    | nil =>
      intro _ hkv
      rw [List.nil_append]
      exact extract_stop k v post hkv
    | cons p ps ih =>
      intro hpre hkv
      obtain ⟨pk, pv⟩ := p
      rw [List.cons_append,
        extract_skip pk pv _ (hpre (pk, pv) (List.mem_cons_self _ _))]
      exact ih (fun q hq => hpre q (List.mem_cons_of_mem _ hq)) hkv
  · intro CLIENTS fields rS rC rT hnone
    simp [client_selection_replies, hnone]

/-- Witness for C7 (amended): a non-deciding field followed by a deciding
`action` field, and the no-selection reply on an unrecognised map. -/
theorem claim_C7_amended_witness :
    ((∀ p ∈ ([("foo".toList, "bar".toList)] : List (Str × Str)),
        fieldStops p = false)
      ∧ fieldStops ("action".toList, "client_7".toList) = true)
  ∧ extract_client_id
        ([("foo".toList, "bar".toList)]
          ++ ("action".toList, "client_7".toList) :: [])
      = fieldValue ("action".toList) ("client_7".toList)
  ∧ client_selection_replies [] [("foo".toList, "bar".toList)]
        HttpResult.timeout HttpResult.timeout HttpResult.timeout
      = [Msg.noSelection] :=
  ⟨⟨by decide, by decide⟩,
   claim_C7_amended.1 [("foo".toList, "bar".toList)] _ _ [] (by decide) (by decide),
   claim_C7_amended.2.2 [] _ _ _ _ (claim_C7_amended.2.1 _ (by decide))⟩

/-- C2: for every non-empty query and every Directory, search returns exactly
(as a permutation) the records of which every whitespace-separated token of
the lowercased query is a substring of the lowercased name or id, ordered
with favourites before non-favourites and ascending by name within each
partition; and on favourites Carmen, Ana and matching non-favourite Luis the
result is [Ana, Carmen, Luis]. -/
theorem claim_C2_search (CLIENTS : List Client) (q : Str) (hq : q ≠ []) :
    (search_clients CLIENTS q).Perm (CLIENTS.filter (specMatches q))
  ∧ List.Pairwise (fun a b =>
      (b.is_favourite = true → a.is_favourite = true) ∧
      (a.is_favourite = b.is_favourite →
        pyStrLe a.client_name b.client_name = true)) (search_clients CLIENTS q)
  ∧ search_clients
      [⟨"100".toList, "Carmen".toList, true⟩, ⟨"200".toList, "Ana".toList, true⟩,
       ⟨"300".toList, "Luis".toList, false⟩] ("0".toList)
      = [⟨"200".toList, "Ana".toList, true⟩, ⟨"100".toList, "Carmen".toList, true⟩,
         ⟨"300".toList, "Luis".toList, false⟩] := by
  have hdef : search_clients CLIENTS q
      = pySort searchLe (CLIENTS.filter (specMatches q)) := by
    unfold search_clients
    rw [if_neg hq]
    have hpred : clientMatchTerms (splitWs (strip (pyLower q))) = specMatches q := by
      funext c
      unfold clientMatchTerms specMatches
      rw [splitWs_strip]
    rw [hpred]
  refine ⟨?_, ?_, by decide⟩
  · rw [hdef]
    exact pySort_perm _ _
  · rw [hdef]
    refine (pairwise_pySort searchLe searchLe_trans searchLe_total _).imp ?_
    intro a b hab
    unfold searchLe at hab
    by_cases h : a.is_favourite = b.is_favourite
    · rw [if_pos h] at hab
      exact ⟨fun hb => by rw [h]; exact hb, fun _ => hab⟩
    · rw [if_neg h] at hab
      exact ⟨fun _ => hab, fun he => absurd he h⟩

/-- Witness for C2 at the query containing the single token `0`. -/
theorem claim_C2_search_witness :
    (("0".toList : Str) ≠ [])
  ∧ (search_clients [⟨"100".toList, "Carmen".toList, true⟩] ("0".toList)).Perm
      ([⟨"100".toList, "Carmen".toList, true⟩].filter (specMatches ("0".toList))) :=
  ⟨by decide, (claim_C2_search [⟨"100".toList, "Carmen".toList, true⟩]
    ("0".toList) (by decide)).1⟩

/-- C9: after every successful load, the derived Favourites list is exactly
the favourite-flagged records sorted ascending by name and truncated to at
most 10, every favourite belongs to the Directory, and 15 favourite records
leave exactly 10 entries. -/
theorem claim_C9_favourites (st st' : BotState) (rs : List RawRow)
    (h : load_clients_from_csv st (CsvInput.rows rs) = (st', true)) :
    st'.FAVOURITES
      = (pySort nameLe (st'.CLIENTS.filter fun c => c.is_favourite)).take 10
  ∧ (∀ c ∈ st'.FAVOURITES, c ∈ st'.CLIENTS ∧ c.is_favourite = true)
  ∧ List.Pairwise (fun a b => pyStrLe a.client_name b.client_name = true)
      st'.FAVOURITES
  ∧ st'.FAVOURITES.length ≤ 10
  ∧ ((st'.CLIENTS.filter fun c => c.is_favourite).length = 15 →
      st'.FAVOURITES.length = 10) := by
  rcases hlr : loadRows rs [] [] with ⟨cs, fs, ok⟩
  simp only [load_clients_from_csv] at h
  rw [hlr] at h
  cases ok with
  | false => simp at h
  | true =>
    simp only [Prod.mk.injEq] at h
    obtain ⟨hst, -⟩ := h
    obtain ⟨new, hcs, hfs⟩ := loadRows_success rs [] [] cs fs hlr
    rw [List.nil_append] at hcs hfs
    subst hcs
    subst hst
    refine ⟨?_, ?_, ?_, ?_, ?_⟩
    · show (pySort nameLe fs).take 10
        = (pySort nameLe (cs.filter fun c => c.is_favourite)).take 10
      rw [hfs]
    · intro c hc
      have hc1 : c ∈ pySort nameLe fs := List.mem_of_mem_take hc
      have hc2 : c ∈ fs := (pySort_perm nameLe fs).mem_iff.mp hc1
      rw [hfs] at hc2
      exact ⟨(List.mem_filter.mp hc2).1, (List.mem_filter.mp hc2).2⟩
    · exact List.Pairwise.sublist (List.take_sublist 10 _)
        (pairwise_pySort nameLe nameLe_trans nameLe_total fs)
    · exact List.length_take_le 10 _
    · intro h15
      have h15c : (cs.filter fun c => c.is_favourite).length = 15 := h15
      have hlen : (pySort nameLe fs).length = 15 := by
        rw [(pySort_perm nameLe fs).length_eq, hfs]
        exact h15c
      show ((pySort nameLe fs).take 10).length = 10
      rw [List.length_take, hlen]
      decide

/-- Fifteen favourite-flagged rows, for witnessing C9's truncation. -/
def c9rows : List RawRow :=
  [RawRow.row ("1".toList) ("a".toList) ("true".toList),
   RawRow.row ("2".toList) ("b".toList) ("true".toList),
   RawRow.row ("3".toList) ("c".toList) ("true".toList),
   RawRow.row ("4".toList) ("d".toList) ("true".toList),
   RawRow.row ("5".toList) ("e".toList) ("true".toList),
   RawRow.row ("6".toList) ("f".toList) ("true".toList),
   RawRow.row ("7".toList) ("g".toList) ("true".toList),
   RawRow.row ("8".toList) ("h".toList) ("true".toList),
   RawRow.row ("9".toList) ("i".toList) ("true".toList),
   RawRow.row ("10".toList) ("j".toList) ("true".toList),
   RawRow.row ("11".toList) ("k".toList) ("true".toList),
   RawRow.row ("12".toList) ("l".toList) ("true".toList),
   RawRow.row ("13".toList) ("m".toList) ("true".toList),
   RawRow.row ("14".toList) ("n".toList) ("true".toList),
   RawRow.row ("15".toList) ("o".toList) ("true".toList)]

/-- Witness for C9 at a fifteen-favourite input: the load succeeds and the
derived Favourites list has exactly 10 entries. -/
theorem claim_C9_favourites_witness :
    load_clients_from_csv ⟨[], []⟩ (CsvInput.rows c9rows)
      = ((load_clients_from_csv ⟨[], []⟩ (CsvInput.rows c9rows)).1, true)
  ∧ (((load_clients_from_csv ⟨[], []⟩
        (CsvInput.rows c9rows)).1.CLIENTS.filter fun c => c.is_favourite).length
      = 15)
  ∧ (load_clients_from_csv ⟨[], []⟩
      (CsvInput.rows c9rows)).1.FAVOURITES.length = 10 :=
  ⟨by decide, by decide,
   (claim_C9_favourites ⟨[], []⟩ _ c9rows (by decide)).2.2.2.2 (by decide)⟩

/-- C4 counterexample: the text `juan` is short (one token), carries no
command or mention marker, yet the classifier ignores it instead of treating
it as an implicit search query — the matcher accepts only the `find ` trigger
and the exact word `fav`; no implicit-search path (and no stop-word set)
exists in the code. -/
theorem claim_C4_counterexample :
    classify_text ("juan".toList) = Route.ignored
  ∧ (splitWs ("juan".toList)).length ≤ 4
  ∧ startsWith ("/".toList) ("juan".toList) = false
  ∧ startsWith ("@".toList) ("juan".toList) = false
  ∧ classify_text ("juan".toList) ≠ Route.search ("juan".toList) := by decide

/-- C4 (amended): on the lowered, stripped text the classifier behaves as:
(a) a reserved `/` marker is never classified here; (b) the `find ` trigger
routes to Search with the trigger stripped from the stripped original-case
text; (c) the exact word `fav` routes to Favourites; (d) everything else is
unclassified and ignored — there is no implicit-search fallback. -/
theorem claim_C4_amended (t : Str) :
    (startsWith ("/".toList) (strip (pyLower t)) = true →
      classify_text t = Route.ignored)
  ∧ (startsWith ("find ".toList) (strip (pyLower t)) = true →
      classify_text t = Route.search ((strip t).drop 5))
  ∧ (strip (pyLower t) = "fav".toList → classify_text t = Route.favourites)
  ∧ (startsWith ("/".toList) (strip (pyLower t)) = false →
      startsWith ("find ".toList) (strip (pyLower t)) = false →
      strip (pyLower t) ≠ "fav".toList → classify_text t = Route.ignored) := by
  have hcomm : pyLower (strip t) = strip (pyLower t) := (strip_pyLower t).symm
  refine ⟨?_, ?_, ?_, ?_⟩
  · intro h
    have hm : clientSearchActivityMatches t = false := by
      unfold clientSearchActivityMatches
      rw [if_pos h]
    unfold classify_text
    rw [if_pos hm]
  · intro h
    obtain ⟨r, hr⟩ := startsWith_exists h
    have hslash : startsWith ("/".toList) (strip (pyLower t)) = false := by
      rw [hr]; rfl
    have hm : clientSearchActivityMatches t = true := by
      unfold clientSearchActivityMatches
      rw [if_neg (fun e => by rw [hslash] at e; exact Bool.noConfusion e), if_pos h]
    have hnfav : ¬ pyLower (strip t) = "fav".toList := by
      rw [hcomm, hr]
      intro e
      simp at e
    unfold classify_text
    rw [if_neg (fun e => by rw [hm] at e; exact Bool.noConfusion e), if_neg hnfav,
      if_pos (by rw [hcomm]; exact h)]
  · intro h
    have hslash : startsWith ("/".toList) (strip (pyLower t)) = false := by
      rw [h]; rfl
    have hfind : startsWith ("find ".toList) (strip (pyLower t)) = false := by
      rw [h]; rfl
    have hm : clientSearchActivityMatches t = true := by
      unfold clientSearchActivityMatches
      rw [if_neg (fun e => by rw [hslash] at e; exact Bool.noConfusion e),
        if_neg (fun e => by rw [hfind] at e; exact Bool.noConfusion e), if_pos h]
    unfold classify_text
    rw [if_neg (fun e => by rw [hm] at e; exact Bool.noConfusion e),
      if_pos (by rw [hcomm]; exact h)]
  · intro hslash hfind hnfav
    have hm : clientSearchActivityMatches t = false := by
      unfold clientSearchActivityMatches
      rw [if_neg (fun e => by rw [hslash] at e; exact Bool.noConfusion e),
        if_neg (fun e => by rw [hfind] at e; exact Bool.noConfusion e), if_neg hnfav]
    unfold classify_text
    rw [if_pos hm]

/-- Witness for C4 (amended) at the concrete trigger text `find Ana`. -/
theorem claim_C4_amended_witness :
    startsWith ("find ".toList) (strip (pyLower ("find Ana".toList))) = true
  ∧ classify_text ("find Ana".toList)
      = Route.search ((strip ("find Ana".toList)).drop 5) :=
  ⟨by decide, (claim_C4_amended ("find Ana".toList)).2.1 (by decide)⟩

/-- Whether an enrichment reply is the status-capability message (used to
state that no status message of any kind is emitted when the status call
fails). -/
def mentionsStatus : Msg → Bool := fun m =>
  match m with
  | Msg.statusMsg _ => true
  | _ => false

/-- C1 counterexample: when the status call times out and credit and trades
succeed, the emitted sequence is exactly confirmation, credit, trades — it
contains no status message of any kind, so no distinct unavailability
message is substituted for the failed status capability (the handler only
renders a status block when the call returned a payload). -/
theorem claim_C1_counterexample :
    client_selection_replies [⟨"7".toList, "Zed".toList, false⟩]
        [("action".toList, "client_7".toList)] HttpResult.timeout
        (HttpResult.ok ⟨"CL ok".toList⟩) (HttpResult.ok [])
      = [Msg.confirmation ⟨"7".toList, "Zed".toList, false⟩,
         Msg.creditMsg ("CL ok".toList), Msg.tradesMsg [] ("Zed".toList)]
  ∧ (client_selection_replies [⟨"7".toList, "Zed".toList, false⟩]
        [("action".toList, "client_7".toList)] HttpResult.timeout
        (HttpResult.ok ⟨"CL ok".toList⟩) (HttpResult.ok [])).all
      (fun m => !(mentionsStatus m)) = true := by decide

/-- C1 (amended): for a truthy (non-empty) decoded id whose client is found,
the three capabilities are reported in the fixed status-credit-trades order
after the confirmation and one capability's failure never skips the rest: in
the spec's example scenario (status timeout, credit and trades OK) the
replies are exactly confirmation, credit, trades in that order; the first
reply is always the confirmation and the last always the trades outcome
whatever the other calls did; the credit message is present whenever the
credit call returned a payload; but when the status call fails (404, other
status, connection failure or timeout alike) no status message — in
particular no unavailability message — is emitted at all, and likewise a
failed credit call emits no credit message of any kind.  An empty decoded id
is falsy and yields only the no-selection reply. -/
theorem claim_C1_amended (CLIENTS : List Client) (fields : List (Str × Str))
    (cid : Str) (c : Client)
    (hid : extract_client_id fields = some cid)
    (hcid : cid ≠ [])
    (hc : findClient CLIENTS cid = some c) :
    (∀ (cr : CreditPayload) (ts : List Trade),
      client_selection_replies CLIENTS fields HttpResult.timeout
          (HttpResult.ok cr) (HttpResult.ok ts)
        = [Msg.confirmation c, Msg.creditMsg cr.credit_line,
           Msg.tradesMsg ts c.client_name])
  ∧ (∀ rS rC rT,
      (client_selection_replies CLIENTS fields rS rC rT).head?
        = some (Msg.confirmation c))
  ∧ (∀ rS rC rT,
      (client_selection_replies CLIENTS fields rS rC rT).getLast?
        = some (tradesReply rT c.client_name))
  ∧ (∀ rS rC rT, get_client_status rS = none →
      ∀ l, Msg.statusMsg l ∉ client_selection_replies CLIENTS fields rS rC rT)
  ∧ (∀ rS rC rT, get_client_credit_lines rC = none →
      ∀ l, Msg.creditMsg l ∉ client_selection_replies CLIENTS fields rS rC rT)
  ∧ (∀ rS rT (cr : CreditPayload),
      Msg.creditMsg cr.credit_line
        ∈ client_selection_replies CLIENTS fields rS (HttpResult.ok cr) rT)
  ∧ (∀ (CLIENTS2 : List Client) (fields2 : List (Str × Str)) rS rC rT,
      extract_client_id fields2 = some [] →
      client_selection_replies CLIENTS2 fields2 rS rC rT = [Msg.noSelection]) := by
  refine ⟨?_, ?_, ?_, ?_, ?_, ?_, ?_⟩
  · intro cr ts
    simp [client_selection_replies, hid, hcid, hc, get_client_status,
      get_client_credit_lines, get_client_trades]
  · intro rS rC rT
    simp [client_selection_replies, hid, hcid, hc]
  · intro rS rC rT
    cases hs : get_client_status rS <;> cases hcr : get_client_credit_lines rC <;>
      cases ht : get_client_trades rT <;>
        simp [client_selection_replies, hid, hcid, hc, hs, hcr, ht, tradesReply]
  · intro rS rC rT hs l
    cases hcr : get_client_credit_lines rC <;> cases ht : get_client_trades rT <;>
      simp [client_selection_replies, hid, hcid, hc, hs, hcr, ht]
  · intro rS rC rT hcr l
    cases hs : get_client_status rS <;> cases ht : get_client_trades rT <;>
      simp [client_selection_replies, hid, hcid, hc, hs, hcr, ht]
  · intro rS rT cr
    cases hs : get_client_status rS <;> cases ht : get_client_trades rT <;>
      simp [client_selection_replies, hid, hcid, hc, hs, ht, get_client_credit_lines]
  · intro CLIENTS2 fields2 rS rC rT he
    simp [client_selection_replies, he]

/-- Witness for C1 (amended) at a concrete selection, client and outcome
triple (status timed out, credit and trades succeeded), and at a field map
decoding to the bare (empty, falsy) client marker. -/
theorem claim_C1_amended_witness :
    (extract_client_id [("action".toList, "client_7".toList)] = some ("7".toList)
      ∧ ("7".toList : Str) ≠ []
      ∧ findClient [⟨"7".toList, "Zed".toList, false⟩] ("7".toList)
          = some ⟨"7".toList, "Zed".toList, false⟩)
  ∧ client_selection_replies [⟨"7".toList, "Zed".toList, false⟩]
        [("action".toList, "client_7".toList)] HttpResult.timeout
        (HttpResult.ok ⟨"X".toList⟩) (HttpResult.ok [])
      = [Msg.confirmation ⟨"7".toList, "Zed".toList, false⟩,
         Msg.creditMsg ("X".toList), Msg.tradesMsg [] ("Zed".toList)]
  ∧ client_selection_replies [⟨[], "Nameless".toList, false⟩]
        [("client_".toList, "x".toList)] HttpResult.timeout HttpResult.timeout
        HttpResult.timeout
      = [Msg.noSelection] :=
  ⟨⟨by decide, by decide, by decide⟩,
   (claim_C1_amended [⟨"7".toList, "Zed".toList, false⟩]
     [("action".toList, "client_7".toList)] ("7".toList)
     ⟨"7".toList, "Zed".toList, false⟩ (by decide) (by decide) (by decide)).1
       ⟨"X".toList⟩ [],
   (claim_C1_amended [⟨"7".toList, "Zed".toList, false⟩]
     [("action".toList, "client_7".toList)] ("7".toList)
     ⟨"7".toList, "Zed".toList, false⟩ (by decide) (by decide)
     (by decide)).2.2.2.2.2.2 [⟨[], "Nameless".toList, false⟩]
       [("client_".toList, "x".toList)] HttpResult.timeout HttpResult.timeout
       HttpResult.timeout (by decide)⟩

end ClientBot
